import Mathlib

/-!
Verification of `py360convert`'s cubemap-to-equirectangular conversion (`c2e.py`).

The development shallowly embeds the code of `src/py360convert/c2e.py`.
Numpy `ndarray`s are modelled by `Arr` (a shape list, a dtype tag, and
row-major flattened rational data).  The vectorised mask-based pixel
computation of the source is embedded as the equivalent per-pixel dispatch.
Helper functions of the package that are imported by `c2e.py` from
`py360convert.utils` (whose source file is not part of the sources examined
here) are modelled from the specification, and each such definition carries a
doc comment saying so.

Trigonometric primitives are abstracted as function parameters (together with
the constant `pi`), so every definition stays computable; the geometric
theorems hold for arbitrary interpretations of these parameters, in
particular for the real-valued ones.
-/

set_option autoImplicit false

namespace Py360

/-- Dtype tag of an array (element type bookkeeping only). -/
inductive DTy where
  | u8 | f32 | f64
  deriving DecidableEq, Repr

/-- Model of a numpy `ndarray`: shape, dtype tag, and row-major flattened
rational entries. -/
structure Arr where
  shape : List Nat
  dtype : DTy
  data : List ℚ
  deriving DecidableEq, Repr

instance : Inhabited Arr := ⟨⟨[], DTy.f32, []⟩⟩

/-- Number of axes, numpy's `ndim`. -/
def Arr.ndim (a : Arr) : Nat := a.shape.length

/-- Element lookup of a 3-axis array at index `(i, j, k)` (row-major). -/
def Arr.get3 (a : Arr) (i j k : Nat) : ℚ :=
  a.data.getD ((i * a.shape.getD 1 0 + j) * a.shape.getD 2 0 + k) 0

/-- Element lookup of a 4-axis array at index `(f, i, j, k)` (row-major). -/
def Arr.get4 (a : Arr) (f i j k : Nat) : ℚ :=
  a.data.getD
    (((f * a.shape.getD 1 0 + i) * a.shape.getD 2 0 + j) * a.shape.getD 3 0 + k) 0

/-- Row-major flattened data of a 3-axis array described pointwise. -/
def mk3 (d0 d1 d2 : Nat) (pix : Nat → Nat → Nat → ℚ) : List ℚ :=
  (List.range d0).flatMap fun i =>
    (List.range d1).flatMap fun j =>
      (List.range d2).map fun k => pix i j k

/-- Row-major flattened data of a 2-axis array described pointwise. -/
def mk2 (d0 d1 : Nat) (pix : Nat → Nat → ℚ) : List ℚ :=
  (List.range d0).flatMap fun i =>
    (List.range d1).map fun j => pix i j

/-- The cube face enumeration of the source: `0F 1R 2B 3L 4U 5D`. -/
inductive Face where
  | FRONT | RIGHT | BACK | LEFT | UP | DOWN
  deriving DecidableEq, Repr

/-- Integer value of a face label, as in the source's `IntEnum`. -/
def Face.val : Face → Nat
  | .FRONT => 0
  | .RIGHT => 1
  | .BACK => 2
  | .LEFT => 3
  | .UP => 4
  | .DOWN => 5

section Geometry

variable {α : Type} [LinearOrderedField α]

/-- `np.clip x lo hi` (maximum first, then minimum, as numpy evaluates it). -/
def clip (x lo hi : α) : α := min (max x lo) hi

/-- Pre-clamp face coordinates `(coor_x, coor_y)` computed by `c2e.py`
lines 137-157, embedded per pixel: the mask `tp < Face.UP` selects the
middle band, then the `tp == Face.UP` and `tp == Face.DOWN` masks.
`pi` and the trigonometric maps `sf` (sin), `cf` (cos), `tf` (tan) are
abstract parameters. -/
def coorPreCode (pi : α) (sf cf tf : α → α) (face_w : α) (f : Face) (u v : α) :
    α × α :=
  let face_w2 := face_w / 2
  if f.val < Face.UP.val then
    let angle := u - pi / 2 * (f.val : α)
    (face_w2 * tf angle, -face_w2 * tf v / cf angle)
  else if f = Face.UP then
    let c := face_w2 * tf (pi / 2 - v)
    (c * sf u, c * cf u)
  else
    let c := face_w2 * tf (pi / 2 - |v|)
    (c * sf u, -c * cf u)

/-- The closed-form equirect-to-cube mapping exactly as the specification
states it (section 4.3): middle-band pixels (label < UP) use
`angle = u - pi/2*label`, `x = (face_w/2)*tan(angle)`,
`y = -(face_w/2)*tan(v)/cos(angle)`; UP pixels use
`c = (face_w/2)*tan(pi/2 - v)`, `x = c*sin(u)`, `y = c*cos(u)`; DOWN pixels
use `c = (face_w/2)*tan(pi/2 - |v|)`, `x = c*sin(u)`, `y = -c*cos(u)`. -/
def coorPreSpec (pi : α) (sf cf tf : α → α) (face_w : α) (f : Face) (u v : α) :
    α × α :=
  match f with
  | .UP =>
    let c := face_w / 2 * tf (pi / 2 - v)
    (c * sf u, c * cf u)
  | .DOWN =>
    let c := face_w / 2 * tf (pi / 2 - |v|)
    (c * sf u, -(c * cf u))
  | _ =>
    let angle := u - pi / 2 * (Face.val f : α)
    (face_w / 2 * tf angle, -(face_w / 2 * tf v / cf angle))

/-- Final face coordinates handed to the sampler: recenter by `face_w/2` and
clamp to `[0, face_w]` (`c2e.py` lines 159-163). -/
def coorFinal (pi : α) (sf cf tf : α → α) (fw : Nat) (f : Face) (u v : α) :
    α × α :=
  let p := coorPreCode pi sf cf tf (fw : α) f u v
  (clip (p.1 + (fw : α) / 2) 0 (fw : α), clip (p.2 + (fw : α) / 2) 0 (fw : α))

end Geometry

/-- Abstract interpretations of the real constants and trigonometric
functions used by `c2e`, over `ℚ` so that the pipeline stays computable. -/
structure TrigQ where
  pi : ℚ
  sin : ℚ → ℚ
  cos : ℚ → ℚ
  tan : ℚ → ℚ
  atan : ℚ → ℚ

/-- Failure kinds raised by `c2e` (Python exception classes). -/
inductive Err where
  | valueError (msg : String)
  | typeError (msg : String)
  | keyError (key : String)
  deriving DecidableEq, Repr

/-- Observable heap effects of one `c2e` call: allocation of a fresh array
(with its shape) and an in-place write to an array identified by the number
of its allocation event.  The caller-provided cubemap arrays are never
allocated by the call, so they carry no event number. -/
inductive Ev where
  | alloc (id : Nat) (shape : List Nat)
  | write (id : Nat)
  deriving DecidableEq, Repr

/-- Modelled from the spec: `equirect_uvgrid` of `py360convert.utils` is not
among the examined sources.  Spec 4.1: `u[y,x] = (x + 0.5)/W*2*pi - pi` and
`v[y,x] = (y + 0.5)/H*pi - pi/2`; `u` depends only on the column and `v` only
on the row, so the grids are returned as one function per axis. -/
def equirect_uvgrid (pi : ℚ) (h w : Nat) : (Nat → ℚ) × (Nat → ℚ) :=
  (fun x => ((x : ℚ) + 1 / 2) / (w : ℚ) * (2 * pi) - pi,
   fun y => ((y : ℚ) + 1 / 2) / (h : ℚ) * pi - pi / 2)

/-- Modelled from the spec: `equirect_facetype` of `py360convert.utils` is
not among the examined sources.  Spec 4.2: the longitude is divided into four
`pi/2` bands giving a provisional FRONT/RIGHT/BACK/LEFT label; the pixel is
reassigned to a pole cap when its latitude reaches the
`atan(cos(u_local))`-style threshold, ties going to the pole. -/
def equirect_facetype (T : TrigQ) (h w y x : Nat) : Face :=
  let u := (equirect_uvgrid T.pi h w).1 x
  let v := (equirect_uvgrid T.pi h w).2 y
  let k : ℤ := ⌊(u + T.pi / 4) / (T.pi / 2)⌋
  let band : Face :=
    match (k % 4).toNat with
    | 0 => Face.FRONT
    | 1 => Face.RIGHT
    | 2 => Face.BACK
    | _ => Face.LEFT
  let uLocal := u - T.pi / 2 * (k : ℚ)
  let t := T.atan (T.cos uLocal)
  if v ≤ -t then Face.UP
  else if t ≤ v then Face.DOWN
  else band

/-- Clamp an integer coordinate into the valid index range `[0, size-1]`. -/
def clampI (z : ℤ) (size : Nat) : Nat := (min (max z 0) ((size : ℤ) - 1)).toNat

/-- Modelled from the spec: `CubeFaceSampler` of `py360convert.utils` is not
among the examined sources.  Spec 4.4: nearest (order 0) reads the stacked
faces at the rounded coordinates; bilinear (order 1) is the standard
4-neighbor weighted average with each neighbor index clamped independently
to the valid range.  `st` is the stacked face array of shape
`[6, face_h, face_w, C]`, `f` the face label, `(x, y)` the fractional face
coordinates, `ch` the channel being sampled. -/
def sampleAt (st : Arr) (order : Nat) (f : Face) (x y : ℚ) (ch : Nat) : ℚ :=
  let fh := st.shape.getD 1 0
  let fw := st.shape.getD 2 0
  if order = 0 then
    st.get4 f.val (clampI (round y) fh) (clampI (round x) fw) ch
  else
    let x0 : ℤ := ⌊x⌋
    let y0 : ℤ := ⌊y⌋
    let dx := x - (x0 : ℚ)
    let dy := y - (y0 : ℚ)
    let v00 := st.get4 f.val (clampI y0 fh) (clampI x0 fw) ch
    let v01 := st.get4 f.val (clampI y0 fh) (clampI (x0 + 1) fw) ch
    let v10 := st.get4 f.val (clampI (y0 + 1) fh) (clampI x0 fw) ch
    let v11 := st.get4 f.val (clampI (y0 + 1) fh) (clampI (x0 + 1) fw) ch
    (1 - dx) * (1 - dy) * v00 + dx * (1 - dy) * v01 +
      (1 - dx) * dy * v10 + dx * dy * v11

/-- Modelled from the spec: `mode_to_order` of `py360convert.utils` is not
among the examined sources.  Spec 4.4 and 6: nearest maps to order 0,
bilinear to order 1, and an unrecognized interpolation mode is an
invalid-argument failure. -/
def mode_to_order (mode : String) : Except Err Nat :=
  if mode = "nearest" then .ok 0
  else if mode = "bilinear" then .ok 1
  else .error (.valueError "Unknown interpolation mode.")

/-- The three accepted input layouts of the `cubemap` argument (a numpy
array for the horizon and dice formats, a list of arrays, or a dict of
arrays). -/
inductive CubeInput where
  | arr (a : Arr)
  | list (l : List Arr)
  | dict (d : List (String × Arr))
  deriving DecidableEq, Repr

/-- All arrays carried by a cubemap input. -/
def CubeInput.arrays : CubeInput → List Arr
  | .arr a => [a]
  | .list l => l
  | .dict d => d.map (·.2)

/-- Python `cubemap[k]` lookup on the dict model. -/
def lookupD (d : List (String × Arr)) (k : String) : Option Arr :=
  (d.find? fun p => p.1 = k).map (·.2)

/-- Add a trailing singleton axis, numpy's `x[..., None]` (a view: same
data, one more axis). -/
def addAxis (a : Arr) : Arr := { a with shape := a.shape ++ [1] }

/-- Modelled from the spec: `cube_h2list` of `py360convert.utils` is not
among the examined sources.  Spec 1 and the glossary: the horizon format is
a horizontal strip of the six faces, so face `i` is the `i`-th block of
`face_w` columns, in the face order F R B L U D. -/
def cube_h2list (a : Arr) : List Arr :=
  let fh := a.shape.getD 0 0
  let fw := a.shape.getD 1 0 / 6
  let ch := a.shape.getD 2 0
  (List.range 6).map fun i =>
    ⟨[fh, fw, ch], a.dtype, mk3 fh fw ch fun y x c => a.get3 y (i * fw + x) c⟩

/-- Modelled from the spec: `cube_dice2list` of `py360convert.utils` is not
among the examined sources.  Glossary: the dice layout is an unfolded
cross-shaped arrangement of the six faces within one image (3 face rows by
4 face columns); each face is cut out of its block in the cross. -/
def cube_dice2list (a : Arr) : List Arr :=
  let fw := a.shape.getD 0 0 / 3
  let ch := a.shape.getD 2 0
  let sub := fun (r0 c0 : Nat) =>
    (⟨[fw, fw, ch], a.dtype,
      mk3 fw fw ch fun y x c => a.get3 (r0 * fw + y) (c0 * fw + x) c⟩ : Arr)
  [sub 1 1, sub 1 2, sub 1 3, sub 1 0, sub 0 1, sub 2 1]

/-- Modelled from the spec: `cube_dict2list` of `py360convert.utils` is not
among the examined sources.  It reads the six faces out of the dict in the
face order F R B L U D, a missing key surfacing as Python's `KeyError`. -/
def cube_dict2list (d : List (String × Arr)) : Except Err (List Arr) :=
  match lookupD d "F" with
  | none => .error (.keyError "F")
  | some f =>
  match lookupD d "R" with
  | none => .error (.keyError "R")
  | some r =>
  match lookupD d "B" with
  | none => .error (.keyError "B")
  | some b =>
  match lookupD d "L" with
  | none => .error (.keyError "L")
  | some l =>
  match lookupD d "U" with
  | none => .error (.keyError "U")
  | some u =>
  match lookupD d "D" with
  | none => .error (.keyError "D")
  | some dn => .ok [f, r, b, l, u, dn]

/-- Format dispatch and validation of `c2e.py` lines 81-122: type-check the
argument against the requested format, detect 2-D (single-channel) faces and
add the trailing singleton axis (recording the squeeze flag), and normalize
to the list of six face arrays. -/
def normalize (cm : CubeInput) (fmt : String) : Except Err (List Arr × Bool) :=
  if fmt = "horizon" then
    match cm with
    | .arr a =>
      if a.ndim = 2 then .ok (cube_h2list (addAxis a), true)
      else .ok (cube_h2list a, false)
    | _ => .error (.typeError "cubemap must be a numpy array for cube_format=\"horizon\"")
  else if fmt = "list" then
    match cm with
    | .list l =>
      if (l.map (·.shape)).dedup.length ≠ 1 then
        .error (.valueError "All cubemap elements must have same shape")
      else
        match l with
        | [] => .error (.valueError "All cubemap elements must have same shape")
        | x :: _ =>
          if x.ndim = 2 then .ok (l.map addAxis, true) else .ok (l, false)
    | _ => .error (.typeError "cubemap must be a list for cube_format=\"list\"")
  else if fmt = "dict" then
    match cm with
    | .dict d =>
      if (d.map (·.2.shape)).dedup.length ≠ 1 then
        .error (.valueError "All cubemap elements must have same shape")
      else
        match lookupD d "F" with
        | none => .error (.keyError "F")
        | some f =>
          if f.ndim = 2 then
            (cube_dict2list (d.map fun p => (p.1, addAxis p.2))).map (·, true)
          else
            (cube_dict2list d).map (·, false)
    | _ => .error (.typeError "cubemap must be a dict for cube_format=\"dict\"")
  else if fmt = "dice" then
    match cm with
    | .arr a =>
      if a.ndim = 2 then .ok (cube_dice2list (addAxis a), true)
      else .ok (cube_dice2list a, false)
    | _ => .error (.typeError "cubemap must be a numpy array for cube_format=\"dice\"")
  else .error (.valueError "Unknown cube_format \x7bcube_format\x7d.")

/-- Data of `np.stack faces`: each face's data copied out shape-completely
(padded or truncated to the block size `m`), blocks concatenated. -/
def stackData (m : Nat) : List Arr → List ℚ
  | [] => []
  | a :: rest => ((List.range m).map fun i => a.data.getD i 0) ++ stackData m rest

/-- `np.stack` of `c2e.py` line 124: requires at least one array, all of the
same shape, and produces the array with the new leading axis. -/
def npStack (faces : List Arr) : Except Err Arr :=
  match faces with
  | [] => .error (.valueError "need at least one array to stack")
  | a :: rest =>
    if ∀ b ∈ rest, b.shape = a.shape then
      .ok ⟨(a :: rest).length :: a.shape, a.dtype,
           stackData a.shape.prod (a :: rest)⟩
    else .error (.valueError "all input arrays must have the same shape")

/-- Value of output pixel `(y, x)` in channel `ch`: face label from the
classifier, spherical angles from the grid, face coordinates from the
mapper (`c2e.py` lines 130-163), then one sampler read. -/
def pixVal (T : TrigQ) (st : Arr) (order h' w' : Nat) (y x ch : Nat) : ℚ :=
  let f := equirect_facetype T h' w' y x
  let uv := equirect_uvgrid T.pi h' w'
  let cc := coorFinal T.pi T.sin T.cos T.tan (st.shape.getD 2 0) f (uv.1 x) (uv.2 y)
  sampleAt st order f cc.1 cc.2 ch

/-- `c2e.py` lines 124-170 from the stacked faces on: the square-face check,
the geometry grids, the per-channel sampling into the freshly allocated
output, and the final squeeze.  The event list records, in source order,
every array allocation (`np.stack` line 124 is event 0; the `u`/`v` grids of
line 130 events 1 and 2; `tp` of line 133 event 3; `coor_x`/`coor_y` of
lines 135-136 events 4 and 5; `equirec` of line 165 event 6) and every
in-place write (lines 146-147, 151-152, 156-157 and 160-163 write the
coordinate grids 4 and 5; line 168 writes the output 6 once per channel). -/
def afterStack (T : TrigQ) (h' w' : Nat) (order : Nat) (squeeze : Bool)
    (st : Arr) : Except Err Arr × List Ev :=
  let evStack := [Ev.alloc 0 st.shape]
  if st.shape.getD 1 0 ≠ st.shape.getD 2 0 then
    (.error (.valueError "Cubemap faces must be square."), evStack)
  else
    let C := st.shape.getD 3 0
    let evCoor := evStack ++
      [Ev.alloc 1 [h', w'], Ev.alloc 2 [h', w'], Ev.alloc 3 [h', w'],
       Ev.alloc 4 [h', w'], Ev.alloc 5 [h', w'],
       Ev.write 4, Ev.write 5, Ev.write 4, Ev.write 5, Ev.write 4, Ev.write 5,
       Ev.write 4, Ev.write 5, Ev.write 4, Ev.write 5]
    let evOut := evCoor ++ [Ev.alloc 6 [h', w', C]]
    if 2 ≤ order then
      (.error (.valueError "order must be 0 or 1"), evOut)
    else
      let evWrites := evOut ++ (List.range C).map fun _ => Ev.write 6
      if squeeze then
        (.ok ⟨[h', w'], st.dtype, mk2 h' w' fun y x => pixVal T st order h' w' y x 0⟩,
         evWrites)
      else
        (.ok ⟨[h', w', C], st.dtype, mk3 h' w' C (pixVal T st order h' w')⟩,
         evWrites)

/-- The public conversion `c2e` (`c2e.py` lines 51-170): interpolation-mode
resolution, the width check, format normalization, stacking, and the
geometry-and-sampling pipeline.  Returns the result (output array or raised
failure) paired with the heap-effect trace; a raise truncates the trace at
the point the source raises. -/
def c2e (T : TrigQ) (cubemap : CubeInput) (h w : ℤ) (mode : String)
    (cube_format : String) : Except Err Arr × List Ev :=
  match mode_to_order mode with
  | .error e => (.error e, [])
  | .ok order =>
    if w % 8 ≠ 0 then (.error (.valueError "w must be a multiple of 8."), [])
    else
      match normalize cubemap cube_format with
      | .error e => (.error e, [])
      | .ok (faces, squeeze) =>
        match npStack faces with
        | .error e => (.error e, [])
        | .ok st => afterStack T h.toNat w.toNat order squeeze st

instance {ε σ : Type} [DecidableEq ε] [DecidableEq σ] : DecidableEq (Except ε σ)
  | .error e, .error e' =>
    if h : e = e' then .isTrue (congrArg _ h)
    else .isFalse fun hc => h (Except.error.inj hc)
  | .error _, .ok _ => .isFalse Except.noConfusion
  | .ok _, .error _ => .isFalse Except.noConfusion
  | .ok a, .ok a' =>
    if h : a = a' then .isTrue (congrArg _ h)
    else .isFalse fun hc => h (Except.ok.inj hc)

/-- A concrete interpretation of the trigonometric parameters, used by the
concrete witness evaluations (their truth does not depend on it). -/
def T0 : TrigQ := ⟨3, fun x => x, fun x => x, fun x => x, fun x => x⟩

/-- A 1x1 single-channel face holding the constant 5. -/
def face0 : Arr := ⟨[1, 1, 1], DTy.f32, [5]⟩

/-- A constant-color list-format cubemap: six copies of `face0`. -/
def cm0 : CubeInput := CubeInput.list (List.replicate 6 face0)

/-- A 1x2 (non-square) single-channel face. -/
def faceNS : Arr := ⟨[1, 2, 1], DTy.f32, [5, 5]⟩

/-- A list-format cubemap with equal-shape but non-square faces. -/
def cmNS : CubeInput := CubeInput.list (List.replicate 6 faceNS)

/-- A dict-format cubemap whose values share one shape but with no "F" key. -/
def dNoF : List (String × Arr) := [("X", face0)]

/-- The 2-D (single-channel) test the source applies to the cubemap argument
for each format (`c2e.py` lines 84, 95, 106 and 115): the checked array is
the horizon/dice array, the first list element, or the "F" dict value. -/
def input2D (cm : CubeInput) (fmt : String) : Bool :=
  match cm, fmt with
  | .arr a, "horizon" => a.ndim == 2
  | .list l, "list" => (l.headD default).ndim == 2
  | .dict d, "dict" => ((lookupD d "F").getD default).ndim == 2
  | .arr a, "dice" => a.ndim == 2
  | _, _ => false

/-- The channel count of the (3-D) checked input array, per format. -/
def inputChannels (cm : CubeInput) (fmt : String) : Nat :=
  match cm, fmt with
  | .arr a, "horizon" => a.shape.getD 2 0
  | .list l, "list" => (l.headD default).shape.getD 2 0
  | .dict d, "dict" => ((lookupD d "F").getD default).shape.getD 2 0
  | .arr a, "dice" => a.shape.getD 2 0
  | _, _ => 0

/-- Data completeness: the flattened data has exactly one entry per index of
the shape. -/
def Arr.wf (a : Arr) : Bool := a.data.length == a.shape.prod

/-- Every data entry equals the constant `K`. -/
def Arr.isConst (a : Arr) (K : ℚ) : Bool := a.data.all fun q => q == K

/-- A well-formed constant-color cubemap input of face width `fw` and
channel count `C`, uniformly filled with `K`, in the canonical layout the
given format expects (3-D faces; the horizon strip is `fw x 6fw x C`, the
dice cross `3fw x 4fw x C`). -/
def constInput (cm : CubeInput) (fmt : String) (fw C : Nat) (K : ℚ) : Bool :=
  match cm, fmt with
  | .arr a, "horizon" =>
      (fw != 0) && (a.shape == [fw, 6 * fw, C]) && a.wf && a.isConst K
  | .list l, "list" =>
      (fw != 0) && (l.length == 6) &&
        l.all fun fa => (fa.shape == [fw, fw, C]) && fa.wf && fa.isConst K
  | .dict d, "dict" =>
      (fw != 0) &&
        (["F", "R", "B", "L", "U", "D"].all fun k => (lookupD d k).isSome) &&
        d.all fun p => (p.2.shape == [fw, fw, C]) && p.2.wf && p.2.isConst K
  | .arr a, "dice" =>
      (fw != 0) && (a.shape == [3 * fw, 4 * fw, C]) && a.wf && a.isConst K
  | _, _ => false

/-! ### Helper lemmas about lists, flattened indexing and block layouts -/

section ListLemmas

variable {β : Type}

theorem Face.val_lt_6 (f : Face) : f.val < 6 := by cases f <;> simp [Face.val]

theorem clip_nonneg_le {α : Type} [LinearOrderedField α] {x hi : α} (h0 : 0 ≤ hi) :
    0 ≤ clip x 0 hi ∧ clip x 0 hi ≤ hi := by
  refine ⟨le_min (le_max_right x 0) h0, min_le_right _ _⟩

theorem idx2_lt {i j a b : Nat} (hi : i < a) (hj : j < b) : i * b + j < a * b := by
  calc i * b + j < i * b + b := Nat.add_lt_add_left hj _
    _ = (i + 1) * b := by ring
    _ ≤ a * b := Nat.mul_le_mul_right _ (Nat.succ_le_of_lt hi)

theorem idx3_lt {i j k a b c : Nat} (hi : i < a) (hj : j < b) (hk : k < c) :
    (i * b + j) * c + k < a * b * c :=
  idx2_lt (idx2_lt hi hj) hk

theorem prod3 (a b c : Nat) : List.prod [a, b, c] = a * b * c := by
  simp [List.prod_cons, mul_assoc]

theorem getD_mem {l : List β} {n : Nat} (h : n < l.length) (d : β) :
    l.getD n d ∈ l := by
  rw [List.getD_eq_getElem l d h]
  exact l.getElem_mem h

theorem length_flatMap_const (l : List β) (f : β → List ℚ) (m : Nat)
    (hm : ∀ b ∈ l, (f b).length = m) : (l.flatMap f).length = l.length * m := by
  induction l with
  | nil => simp
  | cons a t ih =>
    have ha := hm a (List.mem_cons_self _ _)
    have ht := ih fun b hb => hm b (List.mem_cons_of_mem _ hb)
    simp only [List.flatMap_cons, List.length_append, ha, ht, List.length_cons]
    ring

theorem getD_flatMap_blocks (b₀ : β) (f : β → List ℚ) (m : Nat) :
    ∀ (l : List β) (i j : Nat), (∀ b ∈ l, (f b).length = m) →
      i < l.length → j < m →
      (l.flatMap f).getD (i * m + j) 0 = (f (l.getD i b₀)).getD j 0 := by
  intro l
  induction l with
  | nil => intro i j _ hi _; simp at hi
  | cons a t ih =>
    intro i j hm hi hj
    have ha := hm a (List.mem_cons_self _ _)
    match i with
    | 0 =>
      have hlt : 0 * m + j < (f a).length := by rw [ha]; omega
      rw [List.flatMap_cons, List.getD_append _ _ _ _ hlt]
      simp
    | i' + 1 =>
      have hidx : (i' + 1) * m + j = (f a).length + (i' * m + j) := by rw [ha]; ring
      rw [List.flatMap_cons, hidx,
        List.getD_append_right _ _ _ _ (Nat.le_add_right _ _),
        Nat.add_sub_cancel_left]
      exact ih i' j (fun b hb => hm b (List.mem_cons_of_mem _ hb)) (by simpa using hi) hj

theorem getD_range {n i : Nat} (h : i < n) (d : Nat) : (List.range n).getD i d = i := by
  rw [List.getD_eq_getElem _ d (by simpa using h)]
  simp

theorem getD_range_map {m j : Nat} (g : Nat → ℚ) (h : j < m) (d : ℚ) :
    (((List.range m).map g)).getD j d = g j := by
  rw [List.getD_eq_getElem _ d (by simpa using h)]
  simp

theorem length_mk3 (d0 d1 d2 : Nat) (pix : Nat → Nat → Nat → ℚ) :
    (mk3 d0 d1 d2 pix).length = d0 * d1 * d2 := by
  rw [mk3, length_flatMap_const _ _ (d1 * d2), List.length_range, mul_assoc]
  intro b _
  rw [length_flatMap_const _ _ d2, List.length_range]
  intro c _
  simp

theorem length_mk2 (d0 d1 : Nat) (pix : Nat → Nat → ℚ) :
    (mk2 d0 d1 pix).length = d0 * d1 := by
  rw [mk2, length_flatMap_const _ _ d1, List.length_range]
  intro b _
  simp

theorem mem_mk3 {d0 d1 d2 : Nat} {pix : Nat → Nat → Nat → ℚ} {q : ℚ}
    (h : q ∈ mk3 d0 d1 d2 pix) :
    ∃ i j k, i < d0 ∧ j < d1 ∧ k < d2 ∧ q = pix i j k := by
  simp only [mk3, List.mem_flatMap, List.mem_map, List.mem_range] at h
  obtain ⟨i, hi, j, hj, k, hk, hq⟩ := h
  exact ⟨i, j, k, hi, hj, hk, hq.symm⟩

theorem mem_mk2 {d0 d1 : Nat} {pix : Nat → Nat → ℚ} {q : ℚ}
    (h : q ∈ mk2 d0 d1 pix) :
    ∃ i j, i < d0 ∧ j < d1 ∧ q = pix i j := by
  simp only [mk2, List.mem_flatMap, List.mem_map, List.mem_range] at h
  obtain ⟨i, hi, j, hj, hq⟩ := h
  exact ⟨i, j, hi, hj, hq.symm⟩

theorem getD_mk3 {d0 d1 d2 : Nat} (pix : Nat → Nat → Nat → ℚ) {i j k : Nat}
    (hi : i < d0) (hj : j < d1) (hk : k < d2) :
    (mk3 d0 d1 d2 pix).getD ((i * d1 + j) * d2 + k) 0 = pix i j k := by
  have hidx : (i * d1 + j) * d2 + k = i * (d1 * d2) + (j * d2 + k) := by ring
  rw [mk3, hidx,
    getD_flatMap_blocks 0 _ (d1 * d2) _ i (j * d2 + k)
      (fun b _ => by
        rw [length_flatMap_const _ _ d2, List.length_range]
        intro c _
        simp)
      (by simpa using hi) (idx2_lt hj hk),
    getD_range hi,
    getD_flatMap_blocks 0 _ d2 _ j k
      (fun b _ => by simp) (by simpa using hj) hk,
    getD_range hj, getD_range_map _ hk]

theorem stackData_eq (m : Nat) (l : List Arr) :
    stackData m l = l.flatMap fun a => (List.range m).map fun i => a.data.getD i 0 := by
  induction l with
  | nil => simp [stackData]
  | cons a t ih => simp [stackData, ih]

theorem dedup_length_one {γ : Type} [DecidableEq γ] {s : γ} :
    ∀ {l : List γ}, l ≠ [] → (∀ x ∈ l, x = s) → l.dedup = [s] := by
  intro l
  induction l with
  | nil => intro h _; exact absurd rfl h
  | cons a t ih =>
    intro _ hall
    have ha : a = s := hall a (List.mem_cons_self _ _)
    match t, ih with
    | [], _ => simp [List.dedup, ha]
    | b :: t', ih =>
      have hbt : (b :: t').dedup = [s] :=
        ih (by simp) fun x hx => hall x (List.mem_cons_of_mem _ hx)
      have hmem : a ∈ b :: t' := by
        rw [ha, hall b (by simp)]
        exact List.mem_cons_self _ _
      rw [List.dedup_cons_of_mem hmem, hbt]

end ListLemmas

/-! ### Lemmas about stacked face arrays and the sampler -/

section StackLemmas

theorem get3_const {a : Arr} {d0 d1 d2 : Nat} {K : ℚ}
    (hsh : a.shape = [d0, d1, d2]) (hwf : a.data.length = a.shape.prod)
    (hK : ∀ q ∈ a.data, q = K) {i j k : Nat}
    (hi : i < d0) (hj : j < d1) (hk : k < d2) : a.get3 i j k = K := by
  have hlen : a.data.length = d0 * d1 * d2 := by rw [hwf, hsh, prod3]
  have hidx : (i * d1 + j) * d2 + k < a.data.length := by
    rw [hlen]; exact idx3_lt hi hj hk
  have hget : a.get3 i j k = a.data.getD ((i * d1 + j) * d2 + k) 0 := by
    rw [Arr.get3, hsh]; rfl
  rw [hget]
  exact hK _ (getD_mem hidx 0)

theorem npStack_ok_inv {faces : List Arr} {st : Arr} (h : npStack faces = .ok st) :
    ∃ a rest, faces = a :: rest ∧ (∀ b ∈ rest, b.shape = a.shape) ∧
      st = ⟨faces.length :: a.shape, a.dtype, stackData a.shape.prod faces⟩ := by
  match faces with
  | [] => simp [npStack] at h
  | a :: rest =>
    rw [npStack] at h
    by_cases hc : ∀ b ∈ rest, b.shape = a.shape
    · rw [if_pos hc] at h
      exact ⟨a, rest, rfl, hc, (Except.ok.inj h).symm⟩
    · rw [if_neg hc] at h
      exact absurd h (by simp)

theorem npStack_ok_of {a : Arr} {rest : List Arr}
    (h : ∀ b ∈ rest, b.shape = a.shape) :
    npStack (a :: rest) =
      .ok ⟨(a :: rest).length :: a.shape, a.dtype,
           stackData a.shape.prod (a :: rest)⟩ := by
  rw [npStack, if_pos h]

theorem stacked_get4 {faces : List Arr} {st : Arr} {d0 d1 d2 : Nat}
    (hstack : npStack faces = .ok st)
    (hsh : ∀ fa ∈ faces, fa.shape = [d0, d1, d2])
    {f i j k : Nat} (hf : f < faces.length)
    (hi : i < d0) (hj : j < d1) (hk : k < d2) :
    st.get4 f i j k = (faces.getD f default).get3 i j k := by
  obtain ⟨a, rest, hfa, _, hste⟩ := npStack_ok_inv hstack
  have ha : a.shape = [d0, d1, d2] := hsh a (hfa ▸ List.mem_cons_self _ _)
  have hface : faces.getD f default ∈ faces := getD_mem hf default
  have hfsh : (faces.getD f default).shape = [d0, d1, d2] := hsh _ hface
  have hm : a.shape.prod = d0 * d1 * d2 := by rw [ha, prod3]
  have hget4 : st.get4 f i j k =
      st.data.getD (((f * d0 + i) * d1 + j) * d2 + k) 0 := by
    rw [Arr.get4, hste, ha]; rfl
  have hidx : ((f * d0 + i) * d1 + j) * d2 + k =
      f * (d0 * d1 * d2) + ((i * d1 + j) * d2 + k) := by ring
  have hblocks : st.data.getD (((f * d0 + i) * d1 + j) * d2 + k) 0 =
      ((List.range (a.shape.prod)).map
        fun n => (faces.getD f default).data.getD n 0).getD
        ((i * d1 + j) * d2 + k) 0 := by
    rw [hste]
    show (stackData a.shape.prod faces).getD _ 0 = _
    rw [stackData_eq, hidx, ← hm,
      getD_flatMap_blocks default _ a.shape.prod faces f ((i * d1 + j) * d2 + k)
        (fun b _ => by simp) hf (by rw [hm]; exact idx3_lt hi hj hk)]
  rw [hget4, hblocks,
    getD_range_map _ (by rw [hm]; exact idx3_lt hi hj hk) 0,
    Arr.get3, hfsh]
  rfl

theorem clampI_lt {z : ℤ} {n : Nat} (hn : 0 < n) : clampI z n < n := by
  have h1 : min (max z 0) ((n : ℤ) - 1) ≤ (n : ℤ) - 1 := min_le_right _ _
  rw [clampI]
  omega

theorem sampleAt_const {st : Arr} {fw C : Nat} {K : ℚ}
    (hsh : st.shape = [6, fw, fw, C]) (hfw : 0 < fw)
    (hK : ∀ f i j c, f < 6 → i < fw → j < fw → c < C → st.get4 f i j c = K)
    {order : Nat} (horder : order = 0 ∨ order = 1)
    (fo : Face) (x y : ℚ) {ch : Nat} (hch : ch < C) :
    sampleAt st order fo x y ch = K := by
  have h1 : st.shape.getD 1 0 = fw := by rw [hsh]; rfl
  have h2 : st.shape.getD 2 0 = fw := by rw [hsh]; rfl
  rcases horder with h0 | h0 <;> subst h0
  · rw [sampleAt, if_pos rfl, h1, h2]
    exact hK _ _ _ _ (Face.val_lt_6 fo) (clampI_lt hfw) (clampI_lt hfw) hch
  · have hQ : ∀ z z' : ℤ, st.get4 fo.val (clampI z fw) (clampI z' fw) ch = K :=
      fun z z' => hK _ _ _ _ (Face.val_lt_6 fo) (clampI_lt hfw) (clampI_lt hfw) hch
    rw [sampleAt, if_neg (by omega), h1, h2]
    simp only [hQ]
    ring

end StackLemmas

/-! ### Inversion lemmas for the validation stages -/

section InversionLemmas

theorem mode_to_order_error_inv {mode : String} {e : Err}
    (h : mode_to_order mode = .error e) :
    e = .valueError "Unknown interpolation mode." := by
  rw [mode_to_order] at h
  by_cases h1 : mode = "nearest"
  · simp [h1] at h
  · by_cases h2 : mode = "bilinear"
    · simp [h1, h2] at h
    · simp [h1, h2] at h
      exact h.symm

theorem mode_to_order_ok_inv {mode : String} {o : Nat}
    (h : mode_to_order mode = .ok o) : o = 0 ∨ o = 1 := by
  rw [mode_to_order] at h
  by_cases h1 : mode = "nearest"
  · simp [h1] at h
    exact Or.inl h.symm
  · by_cases h2 : mode = "bilinear"
    · simp [h1, h2] at h
      exact Or.inr h.symm
    · simp [h1, h2] at h

theorem except_map_error {ε σ τ : Type} {x : Except ε σ} {f : σ → τ} {e : ε}
    (h : x.map f = .error e) : x = .error e := by
  cases x <;> simp_all [Except.map]

theorem cube_dict2list_error_inv {d : List (String × Arr)} {e : Err}
    (h : cube_dict2list d = .error e) : ∃ k, e = .keyError k := by
  rw [cube_dict2list] at h
  repeat' split at h
  all_goals first
    | exact ⟨_, (Except.error.inj h).symm⟩
    | exact absurd h (by simp)

theorem npStack_error_inv {faces : List Arr} {e : Err}
    (h : npStack faces = .error e) :
    e = .valueError "need at least one array to stack" ∨
      e = .valueError "all input arrays must have the same shape" := by
  match faces with
  | [] =>
    rw [npStack] at h
    exact Or.inl (Except.error.inj h).symm
  | a :: rest =>
    rw [npStack] at h
    by_cases hc : ∀ b ∈ rest, b.shape = a.shape
    · rw [if_pos hc] at h
      exact absurd h (by simp)
    · rw [if_neg hc] at h
      exact Or.inr (Except.error.inj h).symm

theorem normalize_error_ne_width {cm : CubeInput} {fmt : String} {e : Err}
    (h : normalize cm fmt = .error e) :
    e ≠ .valueError "w must be a multiple of 8." := by
  intro hbad
  subst hbad
  unfold normalize at h
  repeat' split at h
  any_goals simp at h
  all_goals
    obtain ⟨k, hk⟩ := cube_dict2list_error_inv (except_map_error h)
    simp at hk

theorem c2e_reduces (T : TrigQ) (cm : CubeInput) (h w : ℤ) (mode fmt : String)
    {o : Nat} {faces : List Arr} {sq : Bool} {st : Arr}
    (hmo : mode_to_order mode = .ok o) (hw : w % 8 = 0)
    (hnorm : normalize cm fmt = .ok (faces, sq))
    (hstack : npStack faces = .ok st) :
    c2e T cm h w mode fmt = afterStack T h.toNat w.toNat o sq st := by
  simp only [c2e, hmo, hnorm, hstack]
  rw [if_neg (by simp [hw])]

theorem afterStack_nonsquare {T : TrigQ} {h' w' o : Nat} {sq : Bool} {st : Arr}
    (hsq : st.shape.getD 1 0 ≠ st.shape.getD 2 0) :
    afterStack T h' w' o sq st =
      (.error (.valueError "Cubemap faces must be square."), [Ev.alloc 0 st.shape]) := by
  rw [afterStack, if_pos hsq]

theorem c2e_reduces_normerr (T : TrigQ) (cm : CubeInput) (h w : ℤ)
    (mode fmt : String) {o : Nat} {e : Err}
    (hmo : mode_to_order mode = .ok o) (hw : w % 8 = 0)
    (hn : normalize cm fmt = .error e) :
    c2e T cm h w mode fmt = (.error e, []) := by
  simp only [c2e, hmo, hn]
  rw [if_neg (by simp [hw])]

theorem c2e_reduces_stackerr (T : TrigQ) (cm : CubeInput) (h w : ℤ)
    (mode fmt : String) {o : Nat} {faces : List Arr} {sq : Bool} {e : Err}
    (hmo : mode_to_order mode = .ok o) (hw : w % 8 = 0)
    (hn : normalize cm fmt = .ok (faces, sq))
    (hs : npStack faces = .error e) :
    c2e T cm h w mode fmt = (.error e, []) := by
  simp only [c2e, hmo, hn, hs]
  rw [if_neg (by simp [hw])]

theorem afterStack_error_inv {T : TrigQ} {h' w' o : Nat} {sq : Bool} {st : Arr}
    {e : Err} {tr : List Ev}
    (h : afterStack T h' w' o sq st = (.error e, tr)) :
    e = .valueError "Cubemap faces must be square." ∨
      e = .valueError "order must be 0 or 1" := by
  simp only [afterStack] at h
  split at h
  · exact Or.inl (Except.error.inj (congrArg Prod.fst h)).symm
  · split at h
    · exact Or.inr (Except.error.inj (congrArg Prod.fst h)).symm
    · split at h <;> exact absurd (congrArg Prod.fst h) (by simp)

theorem afterStack_ok_inv {T : TrigQ} {h' w' o : Nat} {sq : Bool} {st out : Arr}
    {tr : List Ev} (h : afterStack T h' w' o sq st = (.ok out, tr)) :
    out = (if sq then
            (⟨[h', w'], st.dtype, mk2 h' w' fun y x => pixVal T st o h' w' y x 0⟩ : Arr)
           else
            ⟨[h', w', st.shape.getD 3 0], st.dtype,
              mk3 h' w' (st.shape.getD 3 0) (pixVal T st o h' w')⟩) := by
  simp only [afterStack] at h
  split at h
  · exact absurd (congrArg Prod.fst h) (by simp)
  · split at h
    · exact absurd (congrArg Prod.fst h) (by simp)
    · split at h
      · rename_i hsq
        rw [if_pos hsq]
        exact (Except.ok.inj (congrArg Prod.fst h)).symm
      · rename_i hsq
        rw [if_neg hsq]
        exact (Except.ok.inj (congrArg Prod.fst h)).symm

theorem range6 : List.range 6 = [0, 1, 2, 3, 4, 5] := rfl

theorem addAxis_dtype (a : Arr) : (addAxis a).dtype = a.dtype := rfl

theorem addAxis_getD2 {a : Arr} (hnd : a.ndim = 2) :
    (addAxis a).shape.getD 2 0 = 1 := by
  have hlen : a.shape.length = 2 := hnd
  rw [addAxis]
  simp only
  rw [List.getD_append_right _ _ _ _ (by omega)]
  rw [hlen]
  rfl

theorem cube_h2list_length (a : Arr) : (cube_h2list a).length = 6 := by
  simp [cube_h2list]

theorem cube_dice2list_length (a : Arr) : (cube_dice2list a).length = 6 := by
  simp [cube_dice2list]

theorem cube_h2list_head_dtype (a : Arr) :
    ((cube_h2list a).headD default).dtype = a.dtype := by
  rw [cube_h2list, range6]
  rfl

theorem cube_h2list_head_shape (a : Arr) :
    ((cube_h2list a).headD default).shape =
      [a.shape.getD 0 0, a.shape.getD 1 0 / 6, a.shape.getD 2 0] := by
  rw [cube_h2list, range6]
  rfl

theorem cube_dice2list_head_dtype (a : Arr) :
    ((cube_dice2list a).headD default).dtype = a.dtype := by
  rw [cube_dice2list]
  rfl

theorem cube_dice2list_head_shape (a : Arr) :
    ((cube_dice2list a).headD default).shape =
      [a.shape.getD 0 0 / 3, a.shape.getD 0 0 / 3, a.shape.getD 2 0] := by
  rw [cube_dice2list]
  rfl

theorem lookupD_mem {d : List (String × Arr)} {k : String} {a : Arr}
    (h : lookupD d k = some a) : a ∈ d.map (·.2) := by
  rw [lookupD] at h
  cases hf : d.find? fun p => p.1 = k with
  | none => rw [hf] at h; simp at h
  | some p =>
    rw [hf] at h
    simp only [Option.map_some'] at h
    have hp := List.mem_of_find?_eq_some hf
    cases Option.some.inj h
    exact List.mem_map_of_mem _ hp

theorem lookupD_map (d : List (String × Arr)) (g : Arr → Arr) (k : String) :
    lookupD (d.map fun p => (p.1, g p.2)) k = (lookupD d k).map g := by
  induction d with
  | nil => rfl
  | cons p t ih =>
    by_cases hk : p.1 = k
    · simp [lookupD, List.find?_cons, hk]
    · simp only [lookupD, List.map_cons, List.find?_cons] at ih ⊢
      simp only [decide_eq_false hk]
      exact ih

theorem cube_dict2list_ok_inv {d : List (String × Arr)} {faces : List Arr}
    (h : cube_dict2list d = .ok faces) :
    ∃ f r b l u dn, lookupD d "F" = some f ∧ lookupD d "R" = some r ∧
      lookupD d "B" = some b ∧ lookupD d "L" = some l ∧
      lookupD d "U" = some u ∧ lookupD d "D" = some dn ∧
      faces = [f, r, b, l, u, dn] := by
  cases hF : lookupD d "F" with
  | none => rw [cube_dict2list, hF] at h; exact absurd h (by simp)
  | some f =>
  cases hR : lookupD d "R" with
  | none => rw [cube_dict2list, hF, hR] at h; exact absurd h (by simp)
  | some r =>
  cases hB : lookupD d "B" with
  | none => rw [cube_dict2list, hF, hR, hB] at h; exact absurd h (by simp)
  | some b =>
  cases hL : lookupD d "L" with
  | none => rw [cube_dict2list, hF, hR, hB, hL] at h; exact absurd h (by simp)
  | some l =>
  cases hU : lookupD d "U" with
  | none => rw [cube_dict2list, hF, hR, hB, hL, hU] at h; exact absurd h (by simp)
  | some u =>
  cases hD : lookupD d "D" with
  | none => rw [cube_dict2list, hF, hR, hB, hL, hU, hD] at h; exact absurd h (by simp)
  | some dn =>
    rw [cube_dict2list, hF, hR, hB, hL, hU, hD] at h
    exact ⟨f, r, b, l, u, dn, rfl, rfl, rfl, rfl, rfl, rfl,
      (Except.ok.inj h).symm⟩

theorem normalize_horizon_inv {a : Arr} {faces : List Arr} {sq : Bool}
    (h : normalize (.arr a) "horizon" = .ok (faces, sq)) :
    (a.ndim = 2 ∧ sq = true ∧ faces = cube_h2list (addAxis a)) ∨
      (a.ndim ≠ 2 ∧ sq = false ∧ faces = cube_h2list a) := by
  by_cases hnd : a.ndim = 2
  · left
    have hcomp : normalize (CubeInput.arr a) "horizon" =
        .ok (cube_h2list (addAxis a), true) := by simp [normalize, hnd]
    rw [hcomp] at h
    simp only [Except.ok.injEq, Prod.mk.injEq] at h
    exact ⟨hnd, h.2.symm, h.1.symm⟩
  · right
    have hcomp : normalize (CubeInput.arr a) "horizon" =
        .ok (cube_h2list a, false) := by simp [normalize, hnd]
    rw [hcomp] at h
    simp only [Except.ok.injEq, Prod.mk.injEq] at h
    exact ⟨hnd, h.2.symm, h.1.symm⟩

theorem normalize_dice_inv {a : Arr} {faces : List Arr} {sq : Bool}
    (h : normalize (.arr a) "dice" = .ok (faces, sq)) :
    (a.ndim = 2 ∧ sq = true ∧ faces = cube_dice2list (addAxis a)) ∨
      (a.ndim ≠ 2 ∧ sq = false ∧ faces = cube_dice2list a) := by
  by_cases hnd : a.ndim = 2
  · left
    have hcomp : normalize (CubeInput.arr a) "dice" =
        .ok (cube_dice2list (addAxis a), true) := by simp [normalize, hnd]
    rw [hcomp] at h
    simp only [Except.ok.injEq, Prod.mk.injEq] at h
    exact ⟨hnd, h.2.symm, h.1.symm⟩
  · right
    have hcomp : normalize (CubeInput.arr a) "dice" =
        .ok (cube_dice2list a, false) := by simp [normalize, hnd]
    rw [hcomp] at h
    simp only [Except.ok.injEq, Prod.mk.injEq] at h
    exact ⟨hnd, h.2.symm, h.1.symm⟩

theorem normalize_list_inv {l : List Arr} {faces : List Arr} {sq : Bool}
    (h : normalize (.list l) "list" = .ok (faces, sq)) :
    ∃ x t, l = x :: t ∧
      ((x.ndim = 2 ∧ sq = true ∧ faces = l.map addAxis) ∨
        (x.ndim ≠ 2 ∧ sq = false ∧ faces = l)) := by
  match l with
  | [] => exact absurd h (by simp [normalize])
  | x :: t =>
    by_cases hdp : (((x :: t).map (·.shape)).dedup).length = 1
    · have hdp' : ((x.shape :: List.map (fun y => y.shape) t).dedup).length = 1 := by
        simpa using hdp
      by_cases hnd : x.ndim = 2
      · have hcomp : normalize (CubeInput.list (x :: t)) "list" =
            .ok ((x :: t).map addAxis, true) := by simp [normalize, hdp', hnd]
        rw [hcomp] at h
        simp only [Except.ok.injEq, Prod.mk.injEq] at h
        exact ⟨x, t, rfl, Or.inl ⟨hnd, h.2.symm, h.1.symm⟩⟩
      · have hcomp : normalize (CubeInput.list (x :: t)) "list" =
            .ok (x :: t, false) := by simp [normalize, hdp', hnd]
        rw [hcomp] at h
        simp only [Except.ok.injEq, Prod.mk.injEq] at h
        exact ⟨x, t, rfl, Or.inr ⟨hnd, h.2.symm, h.1.symm⟩⟩
    · have hdp' : ¬((x.shape :: List.map (fun y => y.shape) t).dedup).length = 1 := by
        simpa using hdp
      have hcomp : normalize (CubeInput.list (x :: t)) "list" =
          .error (.valueError "All cubemap elements must have same shape") := by
        simp [normalize, hdp']
      rw [hcomp] at h
      exact absurd h (by simp)

theorem normalize_dict_inv {d : List (String × Arr)} {faces : List Arr}
    {sq : Bool} (h : normalize (.dict d) "dict" = .ok (faces, sq)) :
    ∃ f, lookupD d "F" = some f ∧
      ((f.ndim = 2 ∧ sq = true ∧
          cube_dict2list (d.map fun p => (p.1, addAxis p.2)) = .ok faces) ∨
        (f.ndim ≠ 2 ∧ sq = false ∧ cube_dict2list d = .ok faces)) := by
  by_cases hdp : ((d.map (·.2.shape)).dedup).length = 1
  · cases hF : lookupD d "F" with
    | none =>
      have hcomp : normalize (CubeInput.dict d) "dict" = .error (.keyError "F") := by
        simp [normalize, hdp, hF]
      rw [hcomp] at h
      exact absurd h (by simp)
    | some f =>
      by_cases hnd : f.ndim = 2
      · have hcomp : normalize (CubeInput.dict d) "dict" =
            (cube_dict2list (d.map fun p => (p.1, addAxis p.2))).map (·, true) := by
          simp [normalize, hdp, hF, hnd]
        rw [hcomp] at h
        cases hdl : cube_dict2list (d.map fun p => (p.1, addAxis p.2)) with
        | error e => rw [hdl] at h; exact absurd h (by simp [Except.map])
        | ok fl =>
          rw [hdl] at h
          simp only [Except.map, Except.ok.injEq, Prod.mk.injEq] at h
          exact ⟨f, rfl, Or.inl ⟨hnd, h.2.symm, by rw [h.1]⟩⟩
      · have hcomp : normalize (CubeInput.dict d) "dict" =
            (cube_dict2list d).map (·, false) := by
          simp [normalize, hdp, hF, hnd]
        rw [hcomp] at h
        cases hdl : cube_dict2list d with
        | error e => rw [hdl] at h; exact absurd h (by simp [Except.map])
        | ok fl =>
          rw [hdl] at h
          simp only [Except.map, Except.ok.injEq, Prod.mk.injEq] at h
          exact ⟨f, rfl, Or.inr ⟨hnd, h.2.symm, by rw [h.1]⟩⟩
  · have hcomp : normalize (CubeInput.dict d) "dict" =
        .error (.valueError "All cubemap elements must have same shape") := by
      simp [normalize, hdp]
    rw [hcomp] at h
    exact absurd h (by simp)

theorem normalize_ok_formats {cm : CubeInput} {fmt : String}
    {x : List Arr × Bool} (h : normalize cm fmt = .ok x) :
    (∃ a, cm = .arr a ∧ (fmt = "horizon" ∨ fmt = "dice")) ∨
      (∃ l, cm = .list l ∧ fmt = "list") ∨
      (∃ d, cm = .dict d ∧ fmt = "dict") := by
  by_cases h1 : fmt = "horizon"
  · subst h1
    match cm with
    | .arr a => exact Or.inl ⟨a, rfl, Or.inl rfl⟩
    | .list l => exact absurd h (by simp [normalize])
    | .dict d => exact absurd h (by simp [normalize])
  by_cases h2 : fmt = "list"
  · subst h2
    match cm with
    | .list l => exact Or.inr (Or.inl ⟨l, rfl, rfl⟩)
    | .arr a => exact absurd h (by simp [normalize])
    | .dict d => exact absurd h (by simp [normalize])
  by_cases h3 : fmt = "dict"
  · subst h3
    match cm with
    | .dict d => exact Or.inr (Or.inr ⟨d, rfl, rfl⟩)
    | .arr a => exact absurd h (by simp [normalize])
    | .list l => exact absurd h (by simp [normalize])
  by_cases h4 : fmt = "dice"
  · subst h4
    match cm with
    | .arr a => exact Or.inl ⟨a, rfl, Or.inr rfl⟩
    | .list l => exact absurd h (by simp [normalize])
    | .dict d => exact absurd h (by simp [normalize])
  · exact absurd h (by simp [normalize, h1, h2, h3, h4])

theorem goodFace_of_flags {fa : Arr} {fw C : Nat} {K : ℚ}
    (hsh : fa.shape = [fw, fw, C]) (hwf : fa.wf = true)
    (hcst : fa.isConst K = true) :
    ∀ y x c, y < fw → x < fw → c < C → fa.get3 y x c = K := by
  intro y x c hy hx hc
  have hwf' : fa.data.length = fa.shape.prod := by simpa [Arr.wf] using hwf
  have hcst' : ∀ q ∈ fa.data, q = K := by
    simpa [Arr.isConst, List.all_eq_true] using hcst
  exact get3_const hsh hwf' hcst' hy hx hc

theorem mk3Arr_get3 {sh : List Nat} {dt : DTy} {d0 d1 d2 : Nat}
    {pix : Nat → Nat → Nat → ℚ} (hsh : sh = [d0, d1, d2])
    {y x c : Nat} (hy : y < d0) (hx : x < d1) (hc : c < d2) :
    (Arr.mk sh dt (mk3 d0 d1 d2 pix)).get3 y x c = pix y x c := by
  rw [Arr.get3]
  simp only [hsh, List.getD_cons_succ, List.getD_cons_zero]
  exact getD_mk3 pix hy hx hc

/-- The conjunction each format's constant cubemap yields after
normalization: no squeeze, six faces, square `fw`-sized `C`-channel faces,
every in-range face entry equal to `K`. -/
theorem goodFaces_list {l faces : List Arr} {sq : Bool} {fw C : Nat} {K : ℚ}
    (hci : constInput (.list l) "list" fw C K = true)
    (hn : normalize (.list l) "list" = .ok (faces, sq)) :
    fw ≠ 0 ∧ sq = false ∧ faces.length = 6 ∧
      (∀ fa ∈ faces, fa.shape = [fw, fw, C]) ∧
      (∀ fa ∈ faces, ∀ y x c, y < fw → x < fw → c < C → fa.get3 y x c = K) := by
  simp only [constInput, Bool.and_eq_true, bne_iff_ne, ne_eq, beq_iff_eq,
    List.all_eq_true] at hci
  obtain ⟨⟨hfw, hlen⟩, hall⟩ := hci
  obtain ⟨x, t, hlx, hcase⟩ := normalize_list_inv hn
  subst hlx
  have hx2 : x.shape = [fw, fw, C] := by
    have := (hall x (List.mem_cons_self _ _)).1.1
    simpa using this
  have hnd3 : x.ndim ≠ 2 := by
    rw [Arr.ndim, hx2]
    simp
  rcases hcase with ⟨hnd, _, _⟩ | ⟨_, hsq, hfc⟩
  · exact absurd hnd hnd3
  · subst hfc
    refine ⟨hfw, hsq, by simpa using hlen, ?_, ?_⟩
    · intro fa hfa
      have := (hall fa hfa).1.1
      simpa using this
    · intro fa hfa
      obtain ⟨⟨h1, h2⟩, h3⟩ := hall fa hfa
      exact goodFace_of_flags (by simpa using h1) h2 h3

theorem goodFaces_horizon {a : Arr} {faces : List Arr} {sq : Bool}
    {fw C : Nat} {K : ℚ}
    (hci : constInput (.arr a) "horizon" fw C K = true)
    (hn : normalize (.arr a) "horizon" = .ok (faces, sq)) :
    fw ≠ 0 ∧ sq = false ∧ faces.length = 6 ∧
      (∀ fa ∈ faces, fa.shape = [fw, fw, C]) ∧
      (∀ fa ∈ faces, ∀ y x c, y < fw → x < fw → c < C → fa.get3 y x c = K) := by
  simp only [constInput, Bool.and_eq_true, bne_iff_ne, ne_eq, beq_iff_eq] at hci
  obtain ⟨⟨⟨hfw, hsh⟩, hwf⟩, hcst⟩ := hci
  have hnd3 : a.ndim ≠ 2 := by
    rw [Arr.ndim, hsh]
    simp
  rcases normalize_horizon_inv hn with ⟨hnd, _, _⟩ | ⟨_, hsq, hfc⟩
  · exact absurd hnd hnd3
  · subst hfc
    have hwf' : a.data.length = a.shape.prod := by simpa [Arr.wf] using hwf
    have hcst' : ∀ q ∈ a.data, q = K := by
      simpa [Arr.isConst, List.all_eq_true] using hcst
    have hdims : a.shape.getD 0 0 = fw ∧ a.shape.getD 1 0 / 6 = fw ∧
        a.shape.getD 2 0 = C := by
      rw [hsh]
      refine ⟨rfl, ?_, rfl⟩
      simpa using Nat.mul_div_cancel_left fw (by norm_num : 0 < 6)
    refine ⟨hfw, hsq, cube_h2list_length a, ?_, ?_⟩
    · intro fa hfa
      rw [cube_h2list] at hfa
      simp only [List.mem_map, List.mem_range] at hfa
      obtain ⟨i, _, rfl⟩ := hfa
      simp only
      rw [hdims.1, hdims.2.1, hdims.2.2]
    · intro fa hfa
      rw [cube_h2list] at hfa
      simp only [List.mem_map, List.mem_range] at hfa
      obtain ⟨i, hi6, rfl⟩ := hfa
      intro y x c hy hx hc
      rw [mk3Arr_get3 (by rw [hdims.1, hdims.2.1, hdims.2.2])
        (by rwa [hdims.1]) (by rwa [hdims.2.1]) (by rwa [hdims.2.2])]
      rw [hdims.2.1]
      exact get3_const hsh hwf' hcst' hy (idx2_lt hi6 hx) hc

theorem goodFaces_dice {a : Arr} {faces : List Arr} {sq : Bool}
    {fw C : Nat} {K : ℚ}
    (hci : constInput (.arr a) "dice" fw C K = true)
    (hn : normalize (.arr a) "dice" = .ok (faces, sq)) :
    fw ≠ 0 ∧ sq = false ∧ faces.length = 6 ∧
      (∀ fa ∈ faces, fa.shape = [fw, fw, C]) ∧
      (∀ fa ∈ faces, ∀ y x c, y < fw → x < fw → c < C → fa.get3 y x c = K) := by
  simp only [constInput, Bool.and_eq_true, bne_iff_ne, ne_eq, beq_iff_eq] at hci
  obtain ⟨⟨⟨hfw, hsh⟩, hwf⟩, hcst⟩ := hci
  have hnd3 : a.ndim ≠ 2 := by
    rw [Arr.ndim, hsh]
    simp
  rcases normalize_dice_inv hn with ⟨hnd, _, _⟩ | ⟨_, hsq, hfc⟩
  · exact absurd hnd hnd3
  · subst hfc
    have hwf' : a.data.length = a.shape.prod := by simpa [Arr.wf] using hwf
    have hcst' : ∀ q ∈ a.data, q = K := by
      simpa [Arr.isConst, List.all_eq_true] using hcst
    have hd0 : a.shape.getD 0 0 / 3 = fw := by
      rw [hsh]
      simpa using Nat.mul_div_cancel_left fw (by norm_num : 0 < 3)
    have hd2 : a.shape.getD 2 0 = C := by rw [hsh]; rfl
    have hface : ∀ r0 c0 : Nat, r0 < 3 → c0 < 4 →
        (Arr.mk [a.shape.getD 0 0 / 3, a.shape.getD 0 0 / 3, a.shape.getD 2 0]
          a.dtype
          (mk3 (a.shape.getD 0 0 / 3) (a.shape.getD 0 0 / 3) (a.shape.getD 2 0)
            fun y x c =>
              a.get3 (r0 * (a.shape.getD 0 0 / 3) + y)
                (c0 * (a.shape.getD 0 0 / 3) + x) c)).shape = [fw, fw, C] ∧
          ∀ y x c, y < fw → x < fw → c < C →
            (Arr.mk [a.shape.getD 0 0 / 3, a.shape.getD 0 0 / 3,
                a.shape.getD 2 0] a.dtype
              (mk3 (a.shape.getD 0 0 / 3) (a.shape.getD 0 0 / 3)
                (a.shape.getD 2 0)
                fun y x c =>
                  a.get3 (r0 * (a.shape.getD 0 0 / 3) + y)
                    (c0 * (a.shape.getD 0 0 / 3) + x) c)).get3 y x c = K := by
      intro r0 c0 hr0 hc0
      constructor
      · simp only
        rw [hd0, hd2]
      · intro y x c hy hx hc
        rw [mk3Arr_get3 (by rw [hd0, hd2]) (by rwa [hd0]) (by rwa [hd0])
          (by rwa [hd2])]
        rw [hd0]
        exact get3_const hsh hwf' hcst' (idx2_lt hr0 hy) (idx2_lt hc0 hx) hc
    refine ⟨hfw, hsq, cube_dice2list_length a, ?_, ?_⟩
    · intro fa hfa
      rw [cube_dice2list] at hfa
      simp only [List.mem_cons, List.not_mem_nil, or_false] at hfa
      rcases hfa with rfl | rfl | rfl | rfl | rfl | rfl
      · exact (hface 1 1 (by norm_num) (by norm_num)).1
      · exact (hface 1 2 (by norm_num) (by norm_num)).1
      · exact (hface 1 3 (by norm_num) (by norm_num)).1
      · exact (hface 1 0 (by norm_num) (by norm_num)).1
      · exact (hface 0 1 (by norm_num) (by norm_num)).1
      · exact (hface 2 1 (by norm_num) (by norm_num)).1
    · intro fa hfa
      rw [cube_dice2list] at hfa
      simp only [List.mem_cons, List.not_mem_nil, or_false] at hfa
      rcases hfa with rfl | rfl | rfl | rfl | rfl | rfl
      · exact (hface 1 1 (by norm_num) (by norm_num)).2
      · exact (hface 1 2 (by norm_num) (by norm_num)).2
      · exact (hface 1 3 (by norm_num) (by norm_num)).2
      · exact (hface 1 0 (by norm_num) (by norm_num)).2
      · exact (hface 0 1 (by norm_num) (by norm_num)).2
      · exact (hface 2 1 (by norm_num) (by norm_num)).2

theorem goodFaces_dict {d : List (String × Arr)} {faces : List Arr}
    {sq : Bool} {fw C : Nat} {K : ℚ}
    (hci : constInput (.dict d) "dict" fw C K = true)
    (hn : normalize (.dict d) "dict" = .ok (faces, sq)) :
    fw ≠ 0 ∧ sq = false ∧ faces.length = 6 ∧
      (∀ fa ∈ faces, fa.shape = [fw, fw, C]) ∧
      (∀ fa ∈ faces, ∀ y x c, y < fw → x < fw → c < C → fa.get3 y x c = K) := by
  simp only [constInput, Bool.and_eq_true, bne_iff_ne, ne_eq, beq_iff_eq,
    List.all_eq_true] at hci
  obtain ⟨⟨hfw, _⟩, hall⟩ := hci
  obtain ⟨f, hF, hcase⟩ := normalize_dict_inv hn
  have hfmem : f ∈ d.map (·.2) := lookupD_mem hF
  have hfgood : f.shape = [fw, fw, C] := by
    obtain ⟨p, hp, hp2⟩ := List.mem_map.mp hfmem
    have := (hall p hp).1.1
    rw [← hp2]
    simpa using this
  have hnd3 : f.ndim ≠ 2 := by
    rw [Arr.ndim, hfgood]
    simp
  rcases hcase with ⟨hnd, _, _⟩ | ⟨_, hsq, hdl⟩
  · exact absurd hnd hnd3
  · obtain ⟨f', r', b', l', u', dn', hF', hR', hB', hL', hU', hD', hfl⟩ :=
      cube_dict2list_ok_inv hdl
    have hmem : ∀ fa ∈ faces, fa ∈ d.map (·.2) := by
      intro fa hfa
      rw [hfl] at hfa
      simp only [List.mem_cons, List.not_mem_nil, or_false] at hfa
      rcases hfa with rfl | rfl | rfl | rfl | rfl | rfl
      · exact lookupD_mem hF'
      · exact lookupD_mem hR'
      · exact lookupD_mem hB'
      · exact lookupD_mem hL'
      · exact lookupD_mem hU'
      · exact lookupD_mem hD'
    have hflags : ∀ fa ∈ faces, fa.shape = [fw, fw, C] ∧ fa.wf = true ∧
        fa.isConst K = true := by
      intro fa hfa
      obtain ⟨p, hp, hp2⟩ := List.mem_map.mp (hmem fa hfa)
      obtain ⟨⟨h1, h2⟩, h3⟩ := hall p hp
      rw [← hp2]
      exact ⟨by simpa using h1, h2, h3⟩
    refine ⟨hfw, hsq, by rw [hfl]; rfl, ?_, ?_⟩
    · intro fa hfa
      exact (hflags fa hfa).1
    · intro fa hfa
      obtain ⟨h1, h2, h3⟩ := hflags fa hfa
      exact goodFace_of_flags h1 h2 h3

end InversionLemmas

/-! ### Claim theorems -/

/-- C2: for every pixel, the pre-clamp face coordinates computed by `c2e`
(the mask-dispatched formulas of lines 137-157) equal the spec's closed-form
mapping: middle-band pixels (label < UP) use `angle = u - pi/2*label`,
`x = (face_w/2)*tan(angle)`, `y = -(face_w/2)*tan(v)/cos(angle)`; UP pixels
use `c = (face_w/2)*tan(pi/2 - v)` with `x = c*sin(u)`, `y = c*cos(u)`;
DOWN pixels use `c = (face_w/2)*tan(pi/2 - |v|)` with `x = c*sin(u)`,
`y = -c*cos(u)`.  Holds for every interpretation of pi, sin, cos, tan over
every linear ordered field. -/
theorem coorPre_code_matches_spec {α : Type} [LinearOrderedField α]
    (pi : α) (sf cf tf : α → α) (face_w : α) (f : Face) (u v : α) :
    coorPreCode pi sf cf tf face_w f u v = coorPreSpec pi sf cf tf face_w f u v := by
  cases f <;> simp [coorPreCode, coorPreSpec, Face.val, Prod.ext_iff] <;> ring

/-- C3: after recentering by `face_w/2`, both face coordinates are clamped
to `[0, face_w]` (lines 159-163), so the coordinates handed to the sampler
never fall outside `[0, face_w]` - for every pixel, every face label and
every interpretation of the trigonometric parameters. -/
theorem coorFinal_within_bounds {α : Type} [LinearOrderedField α]
    (pi : α) (sf cf tf : α → α) (fw : Nat) (f : Face) (u v : α) :
    0 ≤ (coorFinal pi sf cf tf fw f u v).1 ∧
      (coorFinal pi sf cf tf fw f u v).1 ≤ (fw : α) ∧
      0 ≤ (coorFinal pi sf cf tf fw f u v).2 ∧
      (coorFinal pi sf cf tf fw f u v).2 ≤ (fw : α) := by
  have h0 : (0 : α) ≤ (fw : α) := Nat.cast_nonneg fw
  have h1 := clip_nonneg_le
    (x := (coorPreCode pi sf cf tf (fw : α) f u v).1 + (fw : α) / 2) h0
  have h2 := clip_nonneg_le
    (x := (coorPreCode pi sf cf tf (fw : α) f u v).2 + (fw : α) / 2) h0
  exact ⟨h1.1, h1.2, h2.1, h2.2⟩

/-- C7: `c2e` is deterministic - two calls with equal inputs return equal
results (the embedded pipeline is a pure function of its arguments). -/
theorem c2e_deterministic (T : TrigQ) (cm1 cm2 : CubeInput) (h w : ℤ)
    (mode fmt : String) (heq : cm1 = cm2) :
    c2e T cm1 h w mode fmt = c2e T cm2 h w mode fmt := by
  rw [heq]

theorem c2e_deterministic_witness :
    c2e T0 cm0 1 8 "nearest" "list" = c2e T0 cm0 1 8 "nearest" "list" :=
  c2e_deterministic T0 cm0 cm0 1 8 "nearest" "list" rfl

/-- C1 (amended): for every call with `w % 8 != 0` (Python semantics of
`%`), `c2e` raises a ValueError with an empty effect trace, i.e. before any
array allocation.  (The original claim's wording "not a positive multiple
of 8" also covers non-positive multiples of 8 such as `w = 0`, which the
width check of line 78 does not reject - see the counterexample.) -/
theorem c2e_width_not_multiple_fails (T : TrigQ) (cm : CubeInput) (h w : ℤ)
    (mode fmt : String) (hw : w % 8 ≠ 0) :
    ∃ msg, c2e T cm h w mode fmt = (.error (.valueError msg), []) := by
  rcases hmo : mode_to_order mode with e | o
  · have he := mode_to_order_error_inv hmo
    exact ⟨"Unknown interpolation mode.", by simp [c2e, hmo, he]⟩
  · exact ⟨"w must be a multiple of 8.", by simp [c2e, hmo, hw]⟩

theorem c2e_width_not_multiple_fails_witness :
    ∃ msg, c2e T0 cm0 8 15 "bilinear" "list" = (.error (.valueError msg), []) :=
  c2e_width_not_multiple_fails T0 cm0 8 15 "bilinear" "list" (by decide)

/-- C1 counterexample: `w = 0` is not a positive multiple of 8, yet the call
succeeds (with an empty `2 x 0` output) instead of failing with a
ValueError, because line 78 only checks `w % 8 != 0` and `0 % 8 == 0`. -/
theorem c2e_w0_not_rejected :
    (c2e T0 cm0 2 0 "nearest" "list").1 = .ok ⟨[2, 0, 1], DTy.f32, []⟩ := by
  with_unfolding_all rfl

/-- C10: a dict-format call whose values all share one shape but which lacks
the key "F" raises `KeyError "F"` from the unguarded `cubemap["F"]` access of
line 106 (not a ValueError/TypeError), for every recognized interpolation
mode and valid width. -/
theorem c2e_dict_missing_F_keyerror (T : TrigQ) (d : List (String × Arr))
    (h w : ℤ) (mode : String)
    (hmode : mode = "nearest" ∨ mode = "bilinear") (hw : w % 8 = 0)
    (hshape : ((d.map (·.2.shape)).dedup).length = 1)
    (hF : lookupD d "F" = none) :
    (c2e T (.dict d) h w mode "dict").1 = .error (.keyError "F") := by
  rcases hmode with h1 | h1 <;> subst h1 <;>
    simp [c2e, mode_to_order, hw, normalize, hshape, hF]

theorem c2e_dict_missing_F_keyerror_witness :
    (c2e T0 (.dict dNoF) 8 8 "nearest" "dict").1 = .error (.keyError "F") :=
  c2e_dict_missing_F_keyerror T0 dNoF 8 8 "nearest" (Or.inl rfl) (by decide)
    (by decide) (by decide)

/-- C5: for every call whose normalized face stack is non-square (second and
third stacked axes differ), `c2e` fails with a ValueError, and the only
possible effect before the failure is the stacking itself (line 124) - no
geometry grid is allocated and no sampling happens. -/
theorem c2e_nonsquare_faces_fail (T : TrigQ) (cm : CubeInput) (h w : ℤ)
    (mode fmt : String) (faces : List Arr) (sq : Bool) (st : Arr)
    (hnorm : normalize cm fmt = .ok (faces, sq))
    (hstack : npStack faces = .ok st)
    (hsq : st.shape.getD 1 0 ≠ st.shape.getD 2 0) :
    (∃ msg, (c2e T cm h w mode fmt).1 = .error (.valueError msg)) ∧
      ∀ e ∈ (c2e T cm h w mode fmt).2, e = Ev.alloc 0 st.shape := by
  rcases hmo : mode_to_order mode with e | o
  · have he := mode_to_order_error_inv hmo
    have hc : c2e T cm h w mode fmt = (.error e, []) := by simp [c2e, hmo]
    rw [hc, he]
    exact ⟨⟨"Unknown interpolation mode.", rfl⟩, by simp⟩
  · by_cases hw : w % 8 = 0
    · have hc := c2e_reduces T cm h w mode fmt hmo hw hnorm hstack
      rw [hc, afterStack_nonsquare hsq]
      exact ⟨⟨"Cubemap faces must be square.", rfl⟩, by simp⟩
    · have hc : c2e T cm h w mode fmt =
          (.error (.valueError "w must be a multiple of 8."), []) := by
        simp [c2e, hmo, hw]
      rw [hc]
      exact ⟨⟨"w must be a multiple of 8.", rfl⟩, by simp⟩

/-- C4: every successful call returns a buffer of shape `H x W x C` with the
same dtype as the input cubemap's arrays, or of shape `H x W` when the
checked input faces were 2-D (single-channel) and the trailing singleton
channel was squeezed. -/
theorem c2e_output_shape_dtype (T : TrigQ) (cm : CubeInput) (h w : ℤ)
    (mode fmt : String) (dt : DTy) (out : Arr) (tr : List Ev)
    (hd : ∀ a ∈ cm.arrays, a.dtype = dt)
    (hres : c2e T cm h w mode fmt = (.ok out, tr)) :
    out.dtype = dt ∧
      out.shape = (if input2D cm fmt then [h.toNat, w.toNat]
                   else [h.toNat, w.toNat, inputChannels cm fmt]) := by
  rcases hmo : mode_to_order mode with e | o
  · rw [show c2e T cm h w mode fmt = (.error e, []) by simp [c2e, hmo]] at hres
    exact absurd (congrArg Prod.fst hres) (by simp)
  by_cases hw : w % 8 = 0
  case neg =>
    rw [show c2e T cm h w mode fmt =
        (.error (.valueError "w must be a multiple of 8."), []) by
      simp [c2e, hmo, hw]] at hres
    exact absurd (congrArg Prod.fst hres) (by simp)
  case pos =>
  rcases hn : normalize cm fmt with e' | ⟨faces, sq⟩
  · rw [c2e_reduces_normerr T cm h w mode fmt hmo hw hn] at hres
    exact absurd (congrArg Prod.fst hres) (by simp)
  rcases hs : npStack faces with e' | st
  · rw [c2e_reduces_stackerr T cm h w mode fmt hmo hw hn hs] at hres
    exact absurd (congrArg Prod.fst hres) (by simp)
  rw [c2e_reduces T cm h w mode fmt hmo hw hn hs] at hres
  have hout := afterStack_ok_inv hres
  obtain ⟨a0, rest, hfaces, hall, hst⟩ := npStack_ok_inv hs
  have hdty : st.dtype = a0.dtype := by rw [hst]
  have hch : st.shape.getD 3 0 = a0.shape.getD 2 0 := by rw [hst]; rfl
  have ha0 : a0 = faces.headD default := by rw [hfaces]; rfl
  have key : (faces.headD default).dtype = dt ∧ sq = input2D cm fmt ∧
      (sq = false →
        (faces.headD default).shape.getD 2 0 = inputChannels cm fmt) := by
    rcases normalize_ok_formats hn with ⟨a, rfl, hfm | hfm⟩ | ⟨l, rfl, hfm⟩ |
      ⟨d, rfl, hfm⟩
    · -- horizon
      subst hfm
      have hda : a.dtype = dt := hd a (by simp [CubeInput.arrays])
      rcases normalize_horizon_inv hn with ⟨hnd, hsq, hfc⟩ | ⟨hnd, hsq, hfc⟩
      · refine ⟨?_, ?_, ?_⟩
        · rw [hfc, cube_h2list_head_dtype, addAxis_dtype]
          exact hda
        · rw [hsq]
          simp [input2D, hnd]
        · intro hcontra
          rw [hsq] at hcontra
          exact absurd hcontra (by simp)
      · refine ⟨?_, ?_, ?_⟩
        · rw [hfc, cube_h2list_head_dtype]
          exact hda
        · rw [hsq]
          simp [input2D, hnd]
        · intro _
          rw [hfc, cube_h2list_head_shape]
          simp [inputChannels]
    · -- dice
      subst hfm
      have hda : a.dtype = dt := hd a (by simp [CubeInput.arrays])
      rcases normalize_dice_inv hn with ⟨hnd, hsq, hfc⟩ | ⟨hnd, hsq, hfc⟩
      · refine ⟨?_, ?_, ?_⟩
        · rw [hfc, cube_dice2list_head_dtype, addAxis_dtype]
          exact hda
        · rw [hsq]
          simp [input2D, hnd]
        · intro hcontra
          rw [hsq] at hcontra
          exact absurd hcontra (by simp)
      · refine ⟨?_, ?_, ?_⟩
        · rw [hfc, cube_dice2list_head_dtype]
          exact hda
        · rw [hsq]
          simp [input2D, hnd]
        · intro _
          rw [hfc, cube_dice2list_head_shape]
          simp [inputChannels]
    · -- list
      subst hfm
      obtain ⟨x, t, hlx, hcase⟩ := normalize_list_inv hn
      subst hlx
      have hdx : x.dtype = dt := hd x (by simp [CubeInput.arrays])
      rcases hcase with ⟨hnd, hsq, hfc⟩ | ⟨hnd, hsq, hfc⟩
      · refine ⟨?_, ?_, ?_⟩
        · rw [hfc]
          exact hdx
        · rw [hsq]
          simp [input2D, hnd]
        · intro hcontra
          rw [hsq] at hcontra
          exact absurd hcontra (by simp)
      · refine ⟨?_, ?_, ?_⟩
        · rw [hfc]
          exact hdx
        · rw [hsq]
          simp [input2D, hnd]
        · intro _
          rw [hfc]
          simp [inputChannels]
    · -- dict
      subst hfm
      obtain ⟨f, hF, hcase⟩ := normalize_dict_inv hn
      have hdf : f.dtype = dt := hd f (lookupD_mem hF)
      rcases hcase with ⟨hnd, hsq, hdl⟩ | ⟨hnd, hsq, hdl⟩
      · obtain ⟨f', r', b', l', u', dn', hF', _, _, _, _, _, hfl⟩ :=
          cube_dict2list_ok_inv hdl
        have hf' : f' = addAxis f := by
          rw [lookupD_map, hF] at hF'
          exact (Option.some.inj hF').symm
        refine ⟨?_, ?_, ?_⟩
        · rw [hfl]
          show f'.dtype = dt
          rw [hf', addAxis_dtype]
          exact hdf
        · rw [hsq]
          simp [input2D, hF, hnd]
        · intro hcontra
          rw [hsq] at hcontra
          exact absurd hcontra (by simp)
      · obtain ⟨f', r', b', l', u', dn', hF', _, _, _, _, _, hfl⟩ :=
          cube_dict2list_ok_inv hdl
        have hf' : f' = f := by
          rw [hF] at hF'
          exact (Option.some.inj hF').symm
        refine ⟨?_, ?_, ?_⟩
        · rw [hfl]
          show f'.dtype = dt
          rw [hf']
          exact hdf
        · rw [hsq]
          simp [input2D, hF, hnd]
        · intro _
          rw [hfl]
          show f'.shape.getD 2 0 = inputChannels (CubeInput.dict d) "dict"
          rw [hf']
          simp [inputChannels, hF]
  obtain ⟨hk1, hk2, hk3⟩ := key
  constructor
  · have h1 : out.dtype = st.dtype := by
      rw [hout]
      cases sq <;> simp
    rw [h1, hdty, ha0]
    exact hk1
  · cases sq with
    | true =>
      have h2 : input2D cm fmt = true := hk2.symm
      have h3 : out.shape = [h.toNat, w.toNat] := by
        rw [hout]
        simp
      rw [h3, if_pos h2]
    | false =>
      have h2 : ¬(input2D cm fmt = true) := by
        rw [← hk2]
        simp
      have h3 : out.shape = [h.toNat, w.toNat, st.shape.getD 3 0] := by
        rw [hout]
        simp
      rw [h3, if_neg h2, hch, ha0, hk3 rfl]

theorem c2e_output_shape_dtype_witness :
    (⟨[1, 8, 1], DTy.f32, [5, 5, 5, 5, 5, 5, 5, 5]⟩ : Arr).dtype = DTy.f32 ∧
      (⟨[1, 8, 1], DTy.f32, [5, 5, 5, 5, 5, 5, 5, 5]⟩ : Arr).shape =
        (if input2D cm0 "list" then [(1 : ℤ).toNat, (8 : ℤ).toNat]
         else [(1 : ℤ).toNat, (8 : ℤ).toNat, inputChannels cm0 "list"]) :=
  c2e_output_shape_dtype T0 cm0 1 8 "nearest" "list" DTy.f32
    ⟨[1, 8, 1], DTy.f32, [5, 5, 5, 5, 5, 5, 5, 5]⟩
    ((c2e T0 cm0 1 8 "nearest" "list").2)
    (by decide) (by with_unfolding_all rfl)

/-- C8: converting a constant-color cubemap (all six faces uniformly filled
with `K`, in any of the four input formats) succeeds into a buffer that is
uniformly `K` everywhere, for every height, valid width and recognized
interpolation mode - exactly, since the sampler's bilinear weights sum
to one. -/
theorem c2e_const_cube_const_output (T : TrigQ) (cm : CubeInput)
    (fmt : String) (fw C : Nat) (K : ℚ) (h w : ℤ) (mode : String)
    (out : Arr) (tr : List Ev)
    (hci : constInput cm fmt fw C K = true)
    (hmode : mode = "nearest" ∨ mode = "bilinear")
    (hw : w % 8 = 0)
    (hres : c2e T cm h w mode fmt = (.ok out, tr)) :
    ∀ q ∈ out.data, q = K := by
  have hmo2 : ∃ o, mode_to_order mode = .ok o ∧ (o = 0 ∨ o = 1) := by
    rcases hmode with h1 | h1 <;> subst h1
    · exact ⟨0, by rw [mode_to_order]; simp, Or.inl rfl⟩
    · exact ⟨1, by rw [mode_to_order]; simp, Or.inr rfl⟩
  obtain ⟨o, hmo, ho01⟩ := hmo2
  rcases hn : normalize cm fmt with e' | ⟨faces, sq⟩
  · rw [c2e_reduces_normerr T cm h w mode fmt hmo hw hn] at hres
    exact absurd (congrArg Prod.fst hres) (by simp)
  rcases hs : npStack faces with e' | st
  · rw [c2e_reduces_stackerr T cm h w mode fmt hmo hw hn hs] at hres
    exact absurd (congrArg Prod.fst hres) (by simp)
  rw [c2e_reduces T cm h w mode fmt hmo hw hn hs] at hres
  have hout := afterStack_ok_inv hres
  obtain ⟨a0, rest, hfaces, hall, hst⟩ := npStack_ok_inv hs
  have hgood : fw ≠ 0 ∧ sq = false ∧ faces.length = 6 ∧
      (∀ fa ∈ faces, fa.shape = [fw, fw, C]) ∧
      (∀ fa ∈ faces, ∀ y x c, y < fw → x < fw → c < C → fa.get3 y x c = K) := by
    rcases normalize_ok_formats hn with ⟨a, rfl, hfm | hfm⟩ | ⟨l, rfl, hfm⟩ |
      ⟨d, rfl, hfm⟩
    · subst hfm
      exact goodFaces_horizon hci hn
    · subst hfm
      exact goodFaces_dice hci hn
    · subst hfm
      exact goodFaces_list hci hn
    · subst hfm
      exact goodFaces_dict hci hn
  obtain ⟨hfw, hsq, hlen6, hshapes, hconsts⟩ := hgood
  subst hsq
  have ha0sh : a0.shape = [fw, fw, C] :=
    hshapes a0 (hfaces ▸ List.mem_cons_self _ _)
  have hstsh : st.shape = [6, fw, fw, C] := by rw [hst, hlen6, ha0sh]
  have hget : ∀ f i j c, f < 6 → i < fw → j < fw → c < C →
      st.get4 f i j c = K := by
    intro f i j c hf hi hj hc
    rw [stacked_get4 hs hshapes (by rw [hlen6]; exact hf) hi hj hc]
    exact hconsts _ (getD_mem (by rw [hlen6]; exact hf) default) i j c hi hj hc
  have hC : st.shape.getD 3 0 = C := by rw [hstsh]; rfl
  rw [if_neg (show ¬(false = true) by simp)] at hout
  intro q hq
  rw [hout] at hq
  simp only [hC] at hq
  obtain ⟨y, x, ch, hy, hx, hch, rfl⟩ := mem_mk3 hq
  simp only [pixVal]
  exact sampleAt_const hstsh (Nat.pos_of_ne_zero hfw) hget ho01 _ _ _ hch

theorem c2e_const_cube_const_output_witness :
    (⟨[1, 8, 1], DTy.f32, [5, 5, 5, 5, 5, 5, 5, 5]⟩ : Arr).data.getD 0 0 = 5 :=
  (c2e_const_cube_const_output T0 cm0 "list" 1 1 5 1 8 "nearest"
    ⟨[1, 8, 1], DTy.f32, [5, 5, 5, 5, 5, 5, 5, 5]⟩
    ((c2e T0 cm0 1 8 "nearest" "list").2)
    (by decide) (Or.inl rfl) (by decide) (by with_unfolding_all rfl))
    ((⟨[1, 8, 1], DTy.f32, [5, 5, 5, 5, 5, 5, 5, 5]⟩ : Arr).data.getD 0 0)
    (by decide)

/-- C9: for every call with a recognized interpolation mode, `c2e` raises
the width ValueError exactly when `w % 8 != 0` (Python semantics); in
particular non-positive multiples of 8 such as `w = 0` or `w = -8` pass the
width validation of line 78 unrejected. -/
theorem c2e_width_error_iff (T : TrigQ) (cm : CubeInput) (h w : ℤ)
    (mode fmt : String) (hmode : mode = "nearest" ∨ mode = "bilinear") :
    ((c2e T cm h w mode fmt).1 =
        .error (.valueError "w must be a multiple of 8.")) ↔ w % 8 ≠ 0 := by
  have hmo : ∃ o, mode_to_order mode = .ok o := by
    rcases hmode with h1 | h1 <;> subst h1
    · exact ⟨0, by rw [mode_to_order]; simp⟩
    · exact ⟨1, by rw [mode_to_order]; simp⟩
  obtain ⟨o, hmo⟩ := hmo
  constructor
  · intro hres
    by_contra hw
    rcases hn : normalize cm fmt with e' | ⟨faces, sq⟩
    · rw [c2e_reduces_normerr T cm h w mode fmt hmo hw hn] at hres
      exact normalize_error_ne_width hn (by simpa using hres)
    · rcases hs : npStack faces with e' | st
      · rw [c2e_reduces_stackerr T cm h w mode fmt hmo hw hn hs] at hres
        rcases npStack_error_inv hs with h2 | h2 <;> simp [h2] at hres
      · rw [c2e_reduces T cm h w mode fmt hmo hw hn hs] at hres
        rcases hpair : afterStack T h.toNat w.toNat o sq st with ⟨r, tr⟩
        rw [hpair] at hres
        simp only at hres
        subst hres
        rcases afterStack_error_inv hpair with h2 | h2 <;> simp at h2
  · intro hw
    simp [c2e, hmo, hw]

theorem c2e_width_error_iff_witness :
    ¬((c2e T0 cm0 8 (-8) "nearest" "list").1 =
        .error (.valueError "w must be a multiple of 8.")) := fun hc =>
  ((c2e_width_error_iff T0 cm0 8 (-8) "nearest" "list" (Or.inl rfl)).mp hc)
    (by decide)

theorem afterStack_props (T : TrigQ) (h' w' o : Nat) (sq : Bool) (st : Arr) :
    (∀ i, Ev.write i ∈ (afterStack T h' w' o sq st).2 →
        ∃ s, Ev.alloc i s ∈ (afterStack T h' w' o sq st).2) ∧
      (∀ e, (afterStack T h' w' o sq st).1 = .error e →
        Ev.write 6 ∉ (afterStack T h' w' o sq st).2) ∧
      (∀ out, (afterStack T h' w' o sq st).1 = .ok out →
        out.data.length = out.shape.prod) := by
  by_cases hsq2 : st.shape.getD 1 0 ≠ st.shape.getD 2 0
  · rw [afterStack_nonsquare hsq2]
    exact ⟨by simp, by simp, by simp⟩
  · by_cases ho : 2 ≤ o
    · have hred : afterStack T h' w' o sq st =
          (.error (.valueError "order must be 0 or 1"),
            [Ev.alloc 0 st.shape, Ev.alloc 1 [h', w'], Ev.alloc 2 [h', w'],
             Ev.alloc 3 [h', w'], Ev.alloc 4 [h', w'], Ev.alloc 5 [h', w'],
             Ev.write 4, Ev.write 5, Ev.write 4, Ev.write 5, Ev.write 4,
             Ev.write 5, Ev.write 4, Ev.write 5, Ev.write 4, Ev.write 5,
             Ev.alloc 6 [h', w', st.shape.getD 3 0]]) := by
        simp only [afterStack]
        rw [if_neg hsq2, if_pos ho]
        rfl
      rw [hred]
      refine ⟨?_, ?_, ?_⟩
      · intro i hi
        have hone : i = 4 ∨ i = 5 ∨ i = 6 := by
          simp only [List.mem_cons, List.not_mem_nil, or_false] at hi
          rcases hi with hi | hi | hi | hi | hi | hi | hi | hi | hi | hi | hi |
            hi | hi | hi | hi | hi | hi <;>
            (try injection hi) <;> omega
        rcases hone with hone | hone | hone <;> subst hone
        · exact ⟨[h', w'], by simp⟩
        · exact ⟨[h', w'], by simp⟩
        · exact ⟨[h', w', st.shape.getD 3 0], by simp⟩
      · intro e _
        simp
      · intro out hout
        simp at hout
    · by_cases hb : sq
      · have hred : afterStack T h' w' o sq st =
            (.ok ⟨[h', w'], st.dtype,
              mk2 h' w' fun y x => pixVal T st o h' w' y x 0⟩,
              [Ev.alloc 0 st.shape, Ev.alloc 1 [h', w'], Ev.alloc 2 [h', w'],
               Ev.alloc 3 [h', w'], Ev.alloc 4 [h', w'], Ev.alloc 5 [h', w'],
               Ev.write 4, Ev.write 5, Ev.write 4, Ev.write 5, Ev.write 4,
               Ev.write 5, Ev.write 4, Ev.write 5, Ev.write 4, Ev.write 5,
               Ev.alloc 6 [h', w', st.shape.getD 3 0]] ++
                (List.range (st.shape.getD 3 0)).map fun _ => Ev.write 6) := by
          simp only [afterStack]
          rw [if_neg hsq2, if_neg ho, if_pos hb]
          rfl
        rw [hred]
        refine ⟨?_, ?_, ?_⟩
        · intro i hi
          have hone : i = 4 ∨ i = 5 ∨ i = 6 := by
            simp only [List.mem_append, List.mem_cons, List.not_mem_nil, or_false,
              List.mem_map, List.mem_range] at hi
            rcases hi with (hi | hi | hi | hi | hi | hi | hi | hi | hi | hi | hi |
              hi | hi | hi | hi | hi | hi) | ⟨a, -, hi⟩ <;>
              (try injection hi) <;> omega
          rcases hone with hone | hone | hone <;> subst hone
          · exact ⟨[h', w'], by simp⟩
          · exact ⟨[h', w'], by simp⟩
          · exact ⟨[h', w', st.shape.getD 3 0], by simp⟩
        · intro e he
          simp at he
        · intro out hout
          simp only [Except.ok.injEq] at hout
          subst hout
          simp [length_mk2, List.prod_cons, List.prod_nil]
      · have hred : afterStack T h' w' o sq st =
            (.ok ⟨[h', w', st.shape.getD 3 0], st.dtype,
              mk3 h' w' (st.shape.getD 3 0) (pixVal T st o h' w')⟩,
              [Ev.alloc 0 st.shape, Ev.alloc 1 [h', w'], Ev.alloc 2 [h', w'],
               Ev.alloc 3 [h', w'], Ev.alloc 4 [h', w'], Ev.alloc 5 [h', w'],
               Ev.write 4, Ev.write 5, Ev.write 4, Ev.write 5, Ev.write 4,
               Ev.write 5, Ev.write 4, Ev.write 5, Ev.write 4, Ev.write 5,
               Ev.alloc 6 [h', w', st.shape.getD 3 0]] ++
                (List.range (st.shape.getD 3 0)).map fun _ => Ev.write 6) := by
          simp only [afterStack]
          rw [if_neg hsq2, if_neg ho, if_neg hb]
          rfl
        rw [hred]
        refine ⟨?_, ?_, ?_⟩
        · intro i hi
          have hone : i = 4 ∨ i = 5 ∨ i = 6 := by
            simp only [List.mem_append, List.mem_cons, List.not_mem_nil, or_false,
              List.mem_map, List.mem_range] at hi
            rcases hi with (hi | hi | hi | hi | hi | hi | hi | hi | hi | hi | hi |
              hi | hi | hi | hi | hi | hi) | ⟨a, -, hi⟩ <;>
              (try injection hi) <;> omega
          rcases hone with hone | hone | hone <;> subst hone
          · exact ⟨[h', w'], by simp⟩
          · exact ⟨[h', w'], by simp⟩
          · exact ⟨[h', w', st.shape.getD 3 0], by simp⟩
        · intro e he
          simp at he
        · intro out hout
          simp only [Except.ok.injEq] at hout
          subst hout
          simp [length_mk3, List.prod_cons, List.prod_nil, mul_assoc]

/-- C6: `c2e` performs no in-place write to any caller-provided array: every
write event in the effect trace targets an array allocated by the call
itself; a failing call has written nothing to the output buffer; and a
successful call returns a complete buffer (data length equal to the full
product of its shape). -/
theorem c2e_no_input_mutation (T : TrigQ) (cm : CubeInput) (h w : ℤ)
    (mode fmt : String) :
    (∀ i, Ev.write i ∈ (c2e T cm h w mode fmt).2 →
        ∃ s, Ev.alloc i s ∈ (c2e T cm h w mode fmt).2) ∧
      (∀ e, (c2e T cm h w mode fmt).1 = .error e →
        Ev.write 6 ∉ (c2e T cm h w mode fmt).2) ∧
      (∀ out, (c2e T cm h w mode fmt).1 = .ok out →
        out.data.length = out.shape.prod) := by
  rcases hmo : mode_to_order mode with e | o
  · have hc : c2e T cm h w mode fmt = (.error e, []) := by simp [c2e, hmo]
    rw [hc]
    exact ⟨by simp, by simp, by simp⟩
  · by_cases hw : w % 8 = 0
    · rcases hn : normalize cm fmt with e' | ⟨faces, sq⟩
      · rw [c2e_reduces_normerr T cm h w mode fmt hmo hw hn]
        exact ⟨by simp, by simp, by simp⟩
      · rcases hs : npStack faces with e' | st
        · rw [c2e_reduces_stackerr T cm h w mode fmt hmo hw hn hs]
          exact ⟨by simp, by simp, by simp⟩
        · rw [c2e_reduces T cm h w mode fmt hmo hw hn hs]
          exact afterStack_props T h.toNat w.toNat o sq st
    · have hc : c2e T cm h w mode fmt =
          (.error (.valueError "w must be a multiple of 8."), []) := by
        simp [c2e, hmo, hw]
      rw [hc]
      exact ⟨by simp, by simp, by simp⟩

theorem c2e_no_input_mutation_witness :
    ∃ s, Ev.alloc 6 s ∈ (c2e T0 cm0 1 8 "nearest" "list").2 :=
  (c2e_no_input_mutation T0 cm0 1 8 "nearest" "list").1 6 (by decide)

theorem c2e_nonsquare_faces_fail_witness :
    (∃ msg, (c2e T0 cmNS 8 8 "nearest" "list").1 = .error (.valueError msg)) ∧
      ∀ e ∈ (c2e T0 cmNS 8 8 "nearest" "list").2,
        e = Ev.alloc 0 [6, 1, 2, 1] :=
  c2e_nonsquare_faces_fail T0 cmNS 8 8 "nearest" "list"
    (List.replicate 6 faceNS) false ⟨[6, 1, 2, 1], DTy.f32,
      stackData 2 (List.replicate 6 faceNS)⟩
    (by decide) (by decide) (by decide)

end Py360
